import Mathlib

/-!
Verification development for the `yolov8_annotator` repository.

The Python sources are shallowly embedded in Lean:

* `src/utils/yolo_format.py` — the YOLO polygon text codec
  (`YOLOAnnotation.to_yolo_string`, `YOLOAnnotation.from_yolo_string`,
  `save_annotations`) is modelled at token level over exact rationals:
  a numeric token of the emitted line is represented by its exact value,
  and the 6-decimal `f-string` formatting (`f'\x7bx:.6f\x7d'`) is modelled
  by `format6`, correct rounding (round half to even) to the 10⁻⁶ grid.

* `src/utils/video_thread.py` — `VideoThread.run` and the command methods
  (`play`, `pause`, `stop`, `seek`) are modelled as a deterministic loop
  over an explicit state (`TState`): asynchronous field writes by the GUI
  thread are delivered as batches of commands, one batch applied before
  each check of the `while` condition, and each loop pass is the function
  `iterate`.  Observable behaviour (emitted Qt signals, `cap.release`,
  `cap.set`, `msleep`) is recorded as a trace of `Event`s.

* `src/widgets/video_inference_tab.py` — `on_export_frame` (precondition
  checks) and `_handle_frame_export_data` (export file layout) are pure
  functions from widget state to an outcome and a list of file-system
  actions.
-/

namespace Yolo

/-- Floor-based rounding of `q` to the nearest integer, ties to even.
This is the rounding performed by CPython when formatting the exact binary
value of a float with 6 decimal places (here applied to `q * 10^6`). -/
def rndHalfEven (x : ℚ) : ℤ :=
  if 2 * x < 2 * (⌊x⌋ : ℚ) + 1 then ⌊x⌋
  else if 2 * (⌊x⌋ : ℚ) + 1 < 2 * x then ⌊x⌋ + 1
  else if ⌊x⌋ % 2 = 0 then ⌊x⌋ else ⌊x⌋ + 1

/-- Value denoted by the 6-decimal token that `f'\x7bx:.6f\x7d'` writes for
the coordinate `x` (embedding of the coordinate formatting used by
`YOLOAnnotation.to_yolo_string` in `src/utils/yolo_format.py`). -/
def format6 (x : ℚ) : ℚ := (rndHalfEven (x * 1000000) : ℚ) / 1000000

/-- Embedding of `class YOLOAnnotation`: an integer class id plus a list of
normalized `(x, y)` points. -/
structure YoloAnn where
  class_id : ℤ
  points : List (ℚ × ℚ)
deriving DecidableEq

/-- Coordinates in the order they appear on an emitted line:
`x1 y1 x2 y2 ...`. -/
def flattenPts : List (ℚ × ℚ) → List ℚ
  | [] => []
  | (x, y) :: r => x :: y :: flattenPts r

/-- Embedding of the re-pairing comprehension of
`YOLOAnnotation.from_yolo_string`:
`points = [(coords[i], coords[i+1]) for i in range(0, len(coords), 2)]`. -/
def pairUp : List ℚ → List (ℚ × ℚ)
  | x :: y :: r => (x, y) :: pairUp r
  | _ => []

/-- Embedding of `YOLOAnnotation.to_yolo_string` at token level: the line
`f'\x7bself.class_id\x7d \x7bcoords\x7d'` carries the class id token followed by the
6-decimal coordinate tokens of every point, in order. -/
def to_yolo_tokens (a : YoloAnn) : ℤ × List ℚ :=
  (a.class_id, flattenPts (a.points.map (fun p => (format6 p.1, format6 p.2))))

/-- Embedding of `YOLOAnnotation.from_yolo_string`: fails when the line has
fewer than 3 tokens (`len(parts) < 3`) or an odd number of coordinates,
otherwise re-pairs the coordinates. -/
def from_yolo_tokens (t : ℤ × List ℚ) : Option YoloAnn :=
  if t.2.length < 2 then none
  else if t.2.length % 2 ≠ 0 then none
  else some ⟨t.1, pairUp t.2⟩

/-- Embedding of `save_annotations` in `src/utils/yolo_format.py`, acting on
the content of the annotation file (`none` = no file on disk): an empty
annotation list deletes the file if it exists (result is always `none`),
a non-empty list writes one encoded line per annotation. -/
def save_anns (existing : Option (List (ℤ × List ℚ))) (anns : List YoloAnn) :
    Option (List (ℤ × List ℚ)) :=
  if anns.isEmpty then none
  else some (anns.map to_yolo_tokens)

end Yolo

namespace VT

/-- Embedding of the `cv2.VideoCapture` handle: a list of frames in decode
order (`none` marks a frame whose decode fails), the current read index, and
an abstract mapping from a `CAP_PROP_POS_MSEC` seek target to a frame
index. -/
structure Cap where
  frames : List (Option Nat)
  pos : Nat
  msToIdx : Nat → Nat
  posMs : Nat → Nat

/-- Embedding of `cap.read()`: returns the next frame and advances, or
returns failure (`ret == False`) both at end of stream and on a per-frame
decode error, leaving the handle unchanged. -/
def Cap.read (c : Cap) : Option Nat × Cap :=
  match c.frames.get? c.pos with
  | some (some f) => (some f, { c with pos := c.pos + 1 })
  | _ => (none, c)

/-- Embedding of `cap.set(cv2.CAP_PROP_POS_MSEC, ms)`. -/
def Cap.setMs (c : Cap) (ms : Nat) : Cap := { c with pos := c.msToIdx ms }

/-- The fields of `VideoThread` that the playback loop reads and writes
(`is_paused`, `should_stop`, `seek_position`, `cap`), plus the per-video
constants of `run` (`fps`), whether inference is attached+loaded+enabled,
and the abstract draw function of the inference engine. -/
structure TState where
  is_paused : Bool
  should_stop : Bool
  seek_position : ℤ
  cap : Cap
  fps : Nat
  infOn : Bool
  render : Nat → Nat

/-- Transport commands the GUI thread can issue; each is a method of
`VideoThread` that writes shared fields. -/
inductive Cmd
  | play
  | pause
  | stop
  | seek (ms : ℤ)
  | setVideo
deriving DecidableEq

/-- Effect of one command on the shared fields: `play` on a running thread
clears the pause flag, `pause` sets it, `stop` sets the stop flag and
clears the pause flag, `seek` overwrites `seek_position`, `set_video` sets
the stop flag. -/
def applyCmd (s : TState) (c : Cmd) : TState :=
  match c with
  | .play => { s with is_paused := false }
  | .pause => { s with is_paused := true }
  | .stop => { s with should_stop := true, is_paused := false }
  | .seek ms => { s with seek_position := ms }
  | .setVideo => { s with should_stop := true }

/-- A batch of commands delivered between two loop iterations, applied in
issue order. -/
def applyCmds (s : TState) (cs : List Cmd) : TState := cs.foldl applyCmd s

/-- Observable actions of the worker: emitted Qt signals, the reposition
call on the capture, releasing the capture, and sleeps. -/
inductive Event
  | frameReady (f : Nat)
  | positionChanged (p : Nat)
  | durationChanged (d : Nat)
  | playbackFinished
  | errorOccurred
  | released
  | seekApplied (ms : ℤ)
  | slept (ms : Nat)
deriving DecidableEq

/-- The seek handling at the top of the loop body (lines 63-66 of
`src/utils/video_thread.py`): a pending non-negative `seek_position` causes
one reposition of the capture and is reset to `-1`. -/
def applySeek (s : TState) : List Event × TState :=
  if 0 ≤ s.seek_position then
    ([Event.seekApplied s.seek_position],
     { s with cap := s.cap.setMs s.seek_position.toNat, seek_position := -1 })
  else ([], s)

/-- Result of one pass of the `while` loop: emitted events, resulting
state, and whether the loop continues (`cont = false` means the loop has
exited and the cleanup code after the loop has already released the
capture). -/
structure IterOut where
  events : List Event
  state : TState
  cont : Bool

/-- The loop body after the seek handling: pause poll (`msleep(100)` and
`continue`), read, inference + draw, emit frame and position, pacing
sleep of `1000 / fps` ms. -/
def iterBody (sevts : List Event) (s : TState) : IterOut :=
  if s.is_paused then
    { events := sevts ++ [Event.slept 100], state := s, cont := true }
  else
    match s.cap.read with
    | (none, _) =>
      { events := sevts ++ [Event.playbackFinished, Event.released],
        state := s, cont := false }
    | (some f, c2) =>
      { events := sevts ++
          [Event.frameReady (if s.infOn then s.render f else f),
           Event.positionChanged (c2.posMs c2.pos)] ++
          (if 0 < s.fps then [Event.slept (1000 / s.fps)] else []),
        state := { s with cap := c2 }, cont := true }

/-- One full pass: the `while not self.should_stop` check (an exit here
runs the cleanup, which releases the capture), then seek handling, then
the loop body. -/
def iterate (s : TState) : IterOut :=
  if s.should_stop then
    { events := [Event.released], state := s, cont := false }
  else
    iterBody (applySeek s).1 (applySeek s).2

/-- Result of running the loop over a schedule of command batches:
`finished = true` means the loop exited (and released the capture) within
the observed schedule; `finished = false` means the worker is still
running when the observation window ends. -/
structure RunOut where
  events : List Event
  state : TState
  finished : Bool

/-- The playback loop of `VideoThread.run`: before each pass the next
batch of asynchronously issued commands is applied to the shared
fields. -/
def loopRun (s : TState) : List (List Cmd) → RunOut
  | [] => { events := [], state := s, finished := false }
  | cs :: rest =>
    let s1 := applyCmds s cs
    let o := iterate s1
    if o.cont then
      let r := loopRun o.state rest
      { events := o.events ++ r.events, state := r.state, finished := r.finished }
    else
      { events := o.events, state := o.state, finished := true }

/-- Inputs of one call to `VideoThread.run`: whether `video_path` is set,
whether `cap.isOpened()` succeeds, the opened capture, the video fps, the
initial values of the shared fields, and the command schedule. -/
structure RunInput where
  has_path : Bool
  openOk : Bool
  cap0 : Cap
  fps : Nat
  is_paused0 : Bool
  seek0 : ℤ
  infOn : Bool
  render : Nat → Nat
  schedule : List (List Cmd)

/-- Embedding of `VideoThread.run`: no `video_path` returns immediately
(no capture was created); an open failure emits `error_occurred` and
returns without releasing the capture; otherwise `duration_changed` is
emitted, `should_stop` is reset to `False`, and the loop runs. -/
def run (i : RunInput) : RunOut :=
  let s0 : TState :=
    { is_paused := i.is_paused0, should_stop := false,
      seek_position := i.seek0, cap := i.cap0, fps := i.fps,
      infOn := i.infOn, render := i.render }
  if i.has_path = false then
    { events := [], state := s0, finished := true }
  else if i.openOk = false then
    { events := [Event.errorOccurred], state := s0, finished := true }
  else
    let dur := if 0 < i.fps then i.cap0.frames.length * 1000 / i.fps else 0
    let r := loopRun s0 i.schedule
    { events := Event.durationChanged dur :: r.events, state := r.state,
      finished := r.finished }

/-- Predicate for reposition events, used to count them. -/
def isSeekEvt : Event → Bool
  | .seekApplied _ => true
  | _ => false

/-- Number of repositions of the capture recorded in a trace. -/
def seekCount (t : List Event) : Nat := (t.filter isSeekEvt).length

/-- Last value recorded by the `seek` calls of a batch, if any. -/
def lastSeek : List Cmd → Option ℤ
  | [] => none
  | Cmd.seek ms :: r => some ((lastSeek r).getD ms)
  | _ :: r => lastSeek r

/-- Attributes defined by `class VideoThread` in `src/utils/video_thread.py`:
its class-level signals, the fields assigned in `__init__`, and its
methods. -/
def videoThreadAttrs : List String :=
  ["frame_ready", "position_changed", "duration_changed", "playback_finished",
   "error_occurred", "video_path", "inference_engine", "is_playing",
   "is_paused", "should_stop", "seek_position", "cap",
   "set_video", "set_inference_engine", "run", "play", "pause", "stop",
   "seek", "_convert_frame_to_qimage"]

/-- `VideoThread` members accessed on `self.video_thread` by
`VideoInferenceTab` in `src/widgets/video_inference_tab.py`. -/
def tabUsedThreadAttrs : List String :=
  ["set_video", "set_inference_engine", "frame_ready", "position_changed",
   "duration_changed", "playback_finished", "error_occurred",
   "frame_data_ready_for_export", "request_current_frame_data",
   "play", "pause", "stop", "seek", "step_forward", "step_backward",
   "get_frame_at_position", "isRunning", "is_paused"]

end VT

namespace Tab

/-- State of the `VideoHandler` used by the tab. -/
structure VideoHandlerS where
  video_files : List String
  current_index : Nat

/-- Modelled from the spec: `VideoHandler.has_current_video` is called by
`VideoInferenceTab.on_export_frame` but is not defined in
`src/utils/video_handler.py`; per the spec ("no video loaded") it reports
whether a video is currently loaded, which requires a non-empty video
list. -/
def has_current_video (h : VideoHandlerS) : Bool := !h.video_files.isEmpty

/-- The two `VideoThread` flags `on_export_frame` reads through the
`self.video_thread` reference. -/
structure ThreadRef where
  isRunning : Bool
  is_paused : Bool

/-- Outcome of `on_export_frame`: a refusal shown as a synchronous warning
dialog, or the emission of the export request towards the worker. -/
inductive ExportOutcome
  | refused (msg : String)
  | requested
deriving DecidableEq

/-- Embedding of `VideoInferenceTab.on_export_frame` (lines 199-220 of
`src/widgets/video_inference_tab.py`): the precondition checks in source
order; only when all pass is the export request emitted. -/
def on_export_frame (h : VideoHandlerS) (exportDir : Option String)
    (thr : Option ThreadRef) : ExportOutcome :=
  if ¬ has_current_video h then
    .refused "Please select a video first."
  else
    match exportDir with
    | none => .refused "Please select an export output folder first."
    | some _ =>
      match thr with
      | none => .refused "Video is not loaded/running."
      | some t =>
        if ¬ t.isRunning then .refused "Video is not loaded/running."
        else if ¬ t.is_paused then
          .refused "Please pause the video before exporting the current frame."
        else .requested

/-- File-system actions performed by the export handler; label lines are
kept in the same token form as the codec. -/
inductive FsAct
  | makeDirs (path : List String)
  | writeImage (path : List String)
  | writeLabel (path : List String) (lines : List (ℤ × List ℚ))
deriving DecidableEq

/-- Files written by one export request: nothing when `on_export_frame`
refuses, otherwise whatever the handler triggered by
`frame_data_ready_for_export` performs. -/
def export_writes (h : VideoHandlerS) (exportDir : Option String)
    (thr : Option ThreadRef) (handlerActs : List FsAct) : List FsAct :=
  match on_export_frame h exportDir thr with
  | .refused _ => []
  | .requested => handlerActs

/-- Embedding of the Python formatting `f'\x7bframe_number:06d\x7d'`: the decimal
digits left-padded with zeros to a minimum width of 6. -/
def pad6 (n : Nat) : String :=
  let s := toString n
  String.mk (List.replicate (6 - s.length) '0') ++ s

/-- The fields of an ultralytics `Results` object read by
`convert_results_to_yolo_strings`: the optional segmentation masks
(normalized polygons) and the class ids of the boxes. -/
structure UltraResults where
  masks : Option (List (List (ℚ × ℚ)))
  boxCls : List ℤ

/-- Embedding of `convert_results_to_yolo_strings` in
`src/utils/yolo_format.py` at token level: no masks yields no lines, a
mask/class-id count mismatch yields no lines, otherwise one line per
instance with the 6-decimal flattened polygon. -/
def convert_results_to_yolo_lines (r : UltraResults) : List (ℤ × List ℚ) :=
  match r.masks with
  | none => []
  | some polys =>
    if polys.length ≠ r.boxCls.length then []
    else (r.boxCls.zip polys).map
      (fun p => (p.1, Yolo.flattenPts (p.2.map
        (fun q => (Yolo.format6 q.1, Yolo.format6 q.2)))))

/-- Embedding of `VideoInferenceTab._handle_frame_export_data` (lines
306-364 of `src/widgets/video_inference_tab.py`) as the list of
file-system actions it performs, in order. -/
def handle_frame_export_data (enabled : Bool) (outputDir : Option String)
    (frame : Option Nat) (frameNumber : Nat) (videoName : String)
    (results : Option UltraResults) : List FsAct :=
  match outputDir, frame with
  | none, _ => []
  | some _, none => []
  | some dir, some _ =>
    let base := videoName ++ "_f" ++ pad6 frameNumber
    let imagePath := [dir, "images", base ++ ".jpg"]
    let labelPath := [dir, "labels", base ++ ".txt"]
    [FsAct.makeDirs [dir, "images"], FsAct.makeDirs [dir, "labels"],
     FsAct.writeImage imagePath] ++
    (if enabled then
      match results with
      | some r =>
        let ys := convert_results_to_yolo_lines r
        if ¬ ys.isEmpty then [FsAct.writeLabel labelPath ys]
        else [FsAct.writeLabel labelPath []]
      | none => [FsAct.writeLabel labelPath []]
    else [])

end Tab

/-! Helper lemmas for the codec. -/

theorem rndHalfEven_intCast (k : ℤ) : Yolo.rndHalfEven (k : ℚ) = k := by
  unfold Yolo.rndHalfEven
  rw [Int.floor_intCast, if_pos (by norm_num)]

theorem format6_grid (k : ℤ) : Yolo.format6 ((k : ℚ) / 1000000) = (k : ℚ) / 1000000 := by
  unfold Yolo.format6
  rw [div_mul_cancel₀ _ (by norm_num : (1000000 : ℚ) ≠ 0), rndHalfEven_intCast]

theorem flattenPts_length (l : List (ℚ × ℚ)) :
    (Yolo.flattenPts l).length = 2 * l.length := by
  induction l with
  | nil => rfl
  | cons p r ih =>
    rcases p with ⟨x, y⟩
    simp only [Yolo.flattenPts, List.length_cons, ih]
    ring

theorem pairUp_flattenPts (l : List (ℚ × ℚ)) :
    Yolo.pairUp (Yolo.flattenPts l) = l := by
  induction l with
  | nil => rfl
  | cons p r ih =>
    rcases p with ⟨x, y⟩
    simp [Yolo.flattenPts, Yolo.pairUp, ih]

theorem map_format6_fixed (l : List (ℚ × ℚ))
    (h : ∀ p ∈ l, Yolo.format6 p.1 = p.1 ∧ Yolo.format6 p.2 = p.2) :
    l.map (fun p => (Yolo.format6 p.1, Yolo.format6 p.2)) = l := by
  induction l with
  | nil => rfl
  | cons p r ih =>
    have hp := h p (by simp)
    simp only [List.map_cons, hp.1, hp.2]
    rw [ih (fun q hq => h q (by simp [hq]))]

/-- C2 (amended): for every annotation with class id ≥ 0 and a non-empty
list of points all of whose coordinates are exactly representable with 6
decimal places (fixed by the 6-decimal formatter), parsing the encoded
line yields the original annotation back. -/
theorem c2_roundtrip_amended (a : Yolo.YoloAnn) (hid : 0 ≤ a.class_id)
    (hne : a.points ≠ [])
    (hgrid : ∀ p ∈ a.points, Yolo.format6 p.1 = p.1 ∧ Yolo.format6 p.2 = p.2) :
    Yolo.from_yolo_tokens (Yolo.to_yolo_tokens a) = some a := by
  have hnpos : 0 < a.points.length := List.length_pos.mpr hne
  unfold Yolo.to_yolo_tokens Yolo.from_yolo_tokens
  rw [map_format6_fixed a.points hgrid]
  simp only [flattenPts_length, pairUp_flattenPts]
  rw [if_neg (by omega), if_neg (by omega)]

/-- C2 counterexample: the annotation with class id 0 and single point
(1/3, 0) does not survive the round trip — the 6-decimal formatting rounds
1/3 to 0.333333, so parsing the encoded line returns a different
annotation. -/
theorem c2_roundtrip_cx :
    Yolo.from_yolo_tokens (Yolo.to_yolo_tokens ⟨0, [(1/3, 0)]⟩) ≠
      some (⟨0, [(1/3, 0)]⟩ : Yolo.YoloAnn) := by
  have h6 : Yolo.format6 (1/3) = 333333 / 1000000 := by
    norm_num [Yolo.format6, Yolo.rndHalfEven]
  have h0 : Yolo.format6 0 = 0 := by
    norm_num [Yolo.format6, Yolo.rndHalfEven]
  simp only [Yolo.to_yolo_tokens, Yolo.from_yolo_tokens, List.map_cons,
    List.map_nil, Yolo.flattenPts, h6, h0]
  norm_num [Yolo.pairUp, Yolo.YoloAnn.mk.injEq]

/-- C2 witness: a concrete annotation on the 6-decimal grid satisfies the
hypotheses of the amended round-trip theorem and round-trips. -/
theorem c2_roundtrip_witness :
    (0 ≤ (1 : ℤ) ∧ ([((1 : ℚ)/4, (3 : ℚ)/4)] ≠ []) ∧
      (∀ p ∈ [((1 : ℚ)/4, (3 : ℚ)/4)],
        Yolo.format6 p.1 = p.1 ∧ Yolo.format6 p.2 = p.2)) ∧
    Yolo.from_yolo_tokens (Yolo.to_yolo_tokens ⟨1, [(1/4, 3/4)]⟩) =
      some (⟨1, [(1/4, 3/4)]⟩ : Yolo.YoloAnn) := by
  have hg : ∀ p ∈ [((1 : ℚ)/4, (3 : ℚ)/4)],
      Yolo.format6 p.1 = p.1 ∧ Yolo.format6 p.2 = p.2 := by
    intro p hp
    simp only [List.mem_singleton] at hp
    subst hp
    constructor <;> norm_num [Yolo.format6, Yolo.rndHalfEven]
  exact ⟨⟨by norm_num, by simp, hg⟩,
    c2_roundtrip_amended ⟨1, [(1/4, 3/4)]⟩ (by norm_num) (by simp) hg⟩

/-- C10: saving an empty annotation list leaves no file on disk whatever
was there before (the file is deleted if it existed), and a non-empty
list produces a file with exactly one encoded line per annotation. -/
theorem c10_save_empty_deletes :
    (∀ existing, Yolo.save_anns existing [] = none) ∧
    (∀ existing (anns : List Yolo.YoloAnn), anns ≠ [] →
      Yolo.save_anns existing anns = some (anns.map Yolo.to_yolo_tokens) ∧
      (anns.map Yolo.to_yolo_tokens).length = anns.length) := by
  refine ⟨fun e => rfl, fun e anns h => ⟨?_, by simp⟩⟩
  unfold Yolo.save_anns
  rw [if_neg (by simpa using h)]

/-- C10 witness: concrete instances of both parts of the save theorem. -/
theorem c10_save_witness :
    Yolo.save_anns (some [(0, [0, 0])]) [] = none ∧
    (([(⟨0, [(0, 0)]⟩ : Yolo.YoloAnn)] ≠ []) ∧
      Yolo.save_anns none [⟨0, [(0, 0)]⟩] =
        some ([(⟨0, [(0, 0)]⟩ : Yolo.YoloAnn)].map Yolo.to_yolo_tokens)) := by
  refine ⟨c10_save_empty_deletes.1 _, by simp, ?_⟩
  exact (c10_save_empty_deletes.2 none [⟨0, [(0, 0)]⟩] (by simp)).1

/-! Helper lemmas for the playback-loop model. -/

theorem applySeek_of_neg {s : VT.TState} (h : s.seek_position < 0) :
    VT.applySeek s = ([], s) := by
  unfold VT.applySeek
  rw [if_neg (not_le.mpr h)]

theorem applySeek_of_nonneg {s : VT.TState} (h : 0 ≤ s.seek_position) :
    VT.applySeek s = ([VT.Event.seekApplied s.seek_position],
      { s with cap := s.cap.setMs s.seek_position.toNat, seek_position := -1 }) := by
  unfold VT.applySeek
  rw [if_pos h]

theorem iterate_of_stop {s : VT.TState} (h : s.should_stop = true) :
    VT.iterate s = ⟨[VT.Event.released], s, false⟩ := by
  unfold VT.iterate
  rw [if_pos h]

theorem iterate_of_go {s : VT.TState} (h : s.should_stop = false) :
    VT.iterate s = VT.iterBody (VT.applySeek s).1 (VT.applySeek s).2 := by
  unfold VT.iterate
  rw [if_neg (by simp [h])]

theorem iterBody_paused {sevts : List VT.Event} {s : VT.TState}
    (h : s.is_paused = true) :
    VT.iterBody sevts s = ⟨sevts ++ [VT.Event.slept 100], s, true⟩ := by
  unfold VT.iterBody
  rw [if_pos h]

theorem read_none_of_fail {c : VT.Cap}
    (h : c.frames.get? c.pos = some none ∨ c.frames.get? c.pos = none) :
    c.read = (none, c) := by
  unfold VT.Cap.read
  rcases h with h | h <;> rw [List.get?_eq_getElem?] at h <;> simp [h]

theorem iterBody_read_none {sevts : List VT.Event} {s : VT.TState}
    (hp : s.is_paused = false) (hr : (s.cap.read).1 = none) :
    VT.iterBody sevts s =
      ⟨sevts ++ [VT.Event.playbackFinished, VT.Event.released], s, false⟩ := by
  unfold VT.iterBody
  rw [if_neg (by simp [hp])]
  rcases hread : s.cap.read with ⟨o, c2⟩
  rw [hread] at hr
  simp only at hr
  subst hr
  simp

theorem iterBody_read_some {sevts : List VT.Event} {s : VT.TState} {f : Nat}
    {c2 : VT.Cap} (hp : s.is_paused = false) (hr : s.cap.read = (some f, c2)) :
    VT.iterBody sevts s =
      ⟨sevts ++ [VT.Event.frameReady (if s.infOn then s.render f else f),
          VT.Event.positionChanged (c2.posMs c2.pos)] ++
        (if 0 < s.fps then [VT.Event.slept (1000 / s.fps)] else []),
       { s with cap := c2 }, true⟩ := by
  unfold VT.iterBody
  rw [if_neg (by simp [hp]), hr]

theorem applyCmd_stop_mono {s : VT.TState} (c : VT.Cmd)
    (h : s.should_stop = true) : (VT.applyCmd s c).should_stop = true := by
  cases c <;> simp [VT.applyCmd, h]

theorem applyCmds_stop_mono {s : VT.TState} (cs : List VT.Cmd)
    (h : s.should_stop = true) : (VT.applyCmds s cs).should_stop = true := by
  induction cs generalizing s with
  | nil => exact h
  | cons c r ih => exact ih (applyCmd_stop_mono c h)

theorem applyCmds_stop_of_mem {s : VT.TState} {cs : List VT.Cmd}
    (h : VT.Cmd.stop ∈ cs) : (VT.applyCmds s cs).should_stop = true := by
  induction cs generalizing s with
  | nil => cases h
  | cons c r ih =>
    rcases List.mem_cons.mp h with rfl | hr
    · exact applyCmds_stop_mono r rfl
    · exact ih hr

theorem applyCmds_cons (s : VT.TState) (c : VT.Cmd) (r : List VT.Cmd) :
    VT.applyCmds s (c :: r) = VT.applyCmds (VT.applyCmd s c) r := rfl

theorem applyCmds_seek_of_none {s : VT.TState} {cs : List VT.Cmd}
    (h : VT.lastSeek cs = none) :
    (VT.applyCmds s cs).seek_position = s.seek_position := by
  induction cs generalizing s with
  | nil => rfl
  | cons c r ih =>
    rw [applyCmds_cons]
    cases c with
    | seek ms => simp [VT.lastSeek] at h
    | play => rw [ih (by simpa [VT.lastSeek] using h)]; rfl
    | pause => rw [ih (by simpa [VT.lastSeek] using h)]; rfl
    | stop => rw [ih (by simpa [VT.lastSeek] using h)]; rfl
    | setVideo => rw [ih (by simpa [VT.lastSeek] using h)]; rfl

theorem applyCmds_seek_of_lastSeek {s : VT.TState} {cs : List VT.Cmd} {v : ℤ}
    (h : VT.lastSeek cs = some v) : (VT.applyCmds s cs).seek_position = v := by
  induction cs generalizing s with
  | nil => cases h
  | cons c r ih =>
    rw [applyCmds_cons]
    cases c with
    | seek ms =>
      simp only [VT.lastSeek, Option.some.injEq] at h
      rcases hr : VT.lastSeek r with _ | w
      · rw [hr] at h
        simp only [Option.getD_none] at h
        subst h
        rw [applyCmds_seek_of_none hr]
        rfl
      · rw [hr] at h
        simp only [Option.getD_some] at h
        subst h
        exact ih hr
    | play => exact ih (by simpa [VT.lastSeek] using h)
    | pause => exact ih (by simpa [VT.lastSeek] using h)
    | stop => exact ih (by simpa [VT.lastSeek] using h)
    | setVideo => exact ih (by simpa [VT.lastSeek] using h)

theorem seekCount_append (a b : List VT.Event) :
    VT.seekCount (a ++ b) = VT.seekCount a + VT.seekCount b := by
  simp [VT.seekCount, List.filter_append]

theorem iterBody_events_eq (sevts : List VT.Event) (s : VT.TState) :
    ∃ t, (VT.iterBody sevts s).events = sevts ++ t ∧
      VT.seekCount t = 0 ∧
      t.count VT.Event.released = (if (VT.iterBody sevts s).cont then 0 else 1) ∧
      (VT.iterBody sevts s).state.seek_position = s.seek_position ∧
      ((VT.iterBody sevts s).cont = true → VT.Event.playbackFinished ∉ t) ∧
      ((VT.iterBody sevts s).cont = false →
        t = [VT.Event.playbackFinished, VT.Event.released]) := by
  by_cases hp : s.is_paused = true
  · rw [iterBody_paused hp]
    refine ⟨[VT.Event.slept 100], rfl, by simp [VT.seekCount, VT.isSeekEvt], ?_, rfl, by simp, by simp⟩
    simp [List.count_cons]
  · have hp' : s.is_paused = false := by simpa using hp
    rcases hr : s.cap.read with ⟨o, c2⟩
    cases o with
    | none =>
      rw [iterBody_read_none hp' (by rw [hr])]
      refine ⟨[VT.Event.playbackFinished, VT.Event.released], rfl,
        by simp [VT.seekCount, VT.isSeekEvt], ?_, rfl, by simp, fun _ => rfl⟩
      simp [List.count_cons]
    | some f =>
      rw [iterBody_read_some hp' hr]
      refine ⟨[VT.Event.frameReady (if s.infOn then s.render f else f),
          VT.Event.positionChanged (c2.posMs c2.pos)] ++
          (if 0 < s.fps then [VT.Event.slept (1000 / s.fps)] else []),
        by simp, ?_, ?_, rfl, ?_, by simp⟩
      · by_cases hf : 0 < s.fps <;> simp [hf, VT.seekCount, VT.isSeekEvt]
      · by_cases hf : 0 < s.fps <;>
          simp [hf, List.count_append, List.count_cons]
      · by_cases hf : 0 < s.fps <;> simp [hf]

theorem applySeek_no_pf (s : VT.TState) :
    VT.Event.playbackFinished ∉ (VT.applySeek s).1 := by
  unfold VT.applySeek
  split <;> simp

theorem iterate_seek_char {s : VT.TState} (h : s.should_stop = false) :
    VT.seekCount (VT.iterate s).events = (if 0 ≤ s.seek_position then 1 else 0) ∧
    (0 ≤ s.seek_position →
      VT.Event.seekApplied s.seek_position ∈ (VT.iterate s).events ∧
      (VT.iterate s).state.seek_position = -1) ∧
    (s.seek_position < 0 →
      (VT.iterate s).state.seek_position = s.seek_position) := by
  rw [iterate_of_go h]
  by_cases hs : 0 ≤ s.seek_position
  · rw [applySeek_of_nonneg hs]
    obtain ⟨t, ht, ht0, _, hts, _, _⟩ :=
      iterBody_events_eq [VT.Event.seekApplied s.seek_position]
        { s with cap := s.cap.setMs s.seek_position.toNat, seek_position := -1 }
    rw [ht]
    refine ⟨?_, fun _ => ⟨by simp, by rw [hts]⟩, fun hn => absurd hs (by simp [not_le.mpr hn])⟩
    rw [seekCount_append, ht0, if_pos hs]
    simp [VT.seekCount, VT.isSeekEvt]
  · rw [applySeek_of_neg (not_le.mp hs)]
    obtain ⟨t, ht, ht0, _, hts, _, _⟩ := iterBody_events_eq [] s
    rw [ht]
    refine ⟨?_, fun hp => absurd hp hs, fun _ => by rw [hts]⟩
    rw [seekCount_append, ht0, if_neg hs]
    simp [VT.seekCount]

theorem iterate_released_count (s : VT.TState) :
    (VT.iterate s).events.count VT.Event.released =
      (if (VT.iterate s).cont then 0 else 1) := by
  by_cases h : s.should_stop = true
  · rw [iterate_of_stop h]
    simp [List.count_cons]
  · rw [iterate_of_go (by simpa using h)]
    obtain ⟨t, ht, _, htr, _, _, _⟩ :=
      iterBody_events_eq (VT.applySeek s).1 (VT.applySeek s).2
    rw [ht, List.count_append, htr]
    have : (VT.applySeek s).1.count VT.Event.released = 0 := by
      unfold VT.applySeek
      split <;> simp [List.count_cons]
    rw [this, zero_add]

theorem iterate_cont_no_pf {s : VT.TState}
    (h : (VT.iterate s).cont = true) :
    VT.Event.playbackFinished ∉ (VT.iterate s).events := by
  by_cases hs : s.should_stop = true
  · rw [iterate_of_stop hs] at h
    cases h
  · rw [iterate_of_go (by simpa using hs)] at h ⊢
    obtain ⟨t, ht, _, _, _, hnp, _⟩ :=
      iterBody_events_eq (VT.applySeek s).1 (VT.applySeek s).2
    rw [ht]
    intro hmem
    rcases List.mem_append.mp hmem with hmem | hmem
    · exact applySeek_no_pf s hmem
    · exact hnp h hmem

theorem iterate_not_cont_shape {s : VT.TState}
    (h : (VT.iterate s).cont = false) :
    (VT.iterate s).events = [VT.Event.released] ∨
    ∃ pre, (VT.iterate s).events =
        pre ++ [VT.Event.playbackFinished, VT.Event.released] ∧
      VT.Event.playbackFinished ∉ pre := by
  by_cases hs : s.should_stop = true
  · rw [iterate_of_stop hs]
    exact Or.inl rfl
  · rw [iterate_of_go (by simpa using hs)] at h ⊢
    obtain ⟨t, ht, _, _, _, _, hshape⟩ :=
      iterBody_events_eq (VT.applySeek s).1 (VT.applySeek s).2
    rw [ht, hshape h]
    exact Or.inr ⟨(VT.applySeek s).1, rfl, applySeek_no_pf s⟩

theorem loopRun_cons_cont {s : VT.TState} {cs : List VT.Cmd}
    (rest : List (List VT.Cmd))
    (h : (VT.iterate (VT.applyCmds s cs)).cont = true) :
    VT.loopRun s (cs :: rest) =
      ⟨(VT.iterate (VT.applyCmds s cs)).events ++
          (VT.loopRun (VT.iterate (VT.applyCmds s cs)).state rest).events,
        (VT.loopRun (VT.iterate (VT.applyCmds s cs)).state rest).state,
        (VT.loopRun (VT.iterate (VT.applyCmds s cs)).state rest).finished⟩ := by
  simp only [VT.loopRun]
  rw [if_pos h]

theorem loopRun_cons_stop {s : VT.TState} {cs : List VT.Cmd}
    (rest : List (List VT.Cmd))
    (h : (VT.iterate (VT.applyCmds s cs)).cont = false) :
    VT.loopRun s (cs :: rest) =
      ⟨(VT.iterate (VT.applyCmds s cs)).events,
        (VT.iterate (VT.applyCmds s cs)).state, true⟩ := by
  simp only [VT.loopRun]
  rw [if_neg (by simp [h])]

theorem loopRun_released (sch : List (List VT.Cmd)) (s : VT.TState) :
    (VT.loopRun s sch).events.count VT.Event.released =
      (if (VT.loopRun s sch).finished then 1 else 0) := by
  induction sch generalizing s with
  | nil => simp [VT.loopRun]
  | cons cs rest ih =>
    by_cases h : (VT.iterate (VT.applyCmds s cs)).cont = true
    · rw [loopRun_cons_cont rest h]
      simp only [List.count_append]
      have h0 := iterate_released_count (VT.applyCmds s cs)
      rw [if_pos h] at h0
      rw [h0, zero_add]
      exact ih _
    · rw [loopRun_cons_stop rest (by simpa using h)]
      have h0 := iterate_released_count (VT.applyCmds s cs)
      rw [if_neg h] at h0
      simp [h0]

theorem loopRun_pf_terminal (sch : List (List VT.Cmd)) (s : VT.TState)
    (h : VT.Event.playbackFinished ∈ (VT.loopRun s sch).events) :
    ∃ pre, (VT.loopRun s sch).events =
        pre ++ [VT.Event.playbackFinished, VT.Event.released] ∧
      VT.Event.playbackFinished ∉ pre ∧
      (VT.loopRun s sch).finished = true := by
  induction sch generalizing s with
  | nil => simp [VT.loopRun] at h
  | cons cs rest ih =>
    by_cases hc : (VT.iterate (VT.applyCmds s cs)).cont = true
    · rw [loopRun_cons_cont rest hc] at h ⊢
      simp only at h ⊢
      rcases List.mem_append.mp h with hmem | hmem
      · exact absurd hmem (iterate_cont_no_pf hc)
      · obtain ⟨pre, hpre, hnp, hfin⟩ := ih _ hmem
        refine ⟨(VT.iterate (VT.applyCmds s cs)).events ++ pre, ?_, ?_, hfin⟩
        · rw [hpre, List.append_assoc]
        · intro hx
          rcases List.mem_append.mp hx with hx | hx
          · exact iterate_cont_no_pf hc hx
          · exact hnp hx
    · rw [loopRun_cons_stop rest (by simpa using hc)] at h ⊢
      simp only at h ⊢
      rcases iterate_not_cont_shape (by simpa using hc) with hsh | ⟨pre, hpre, hnp⟩
      · rw [hsh] at h
        simp at h
      · exact ⟨pre, hpre, hnp, by trivial⟩

/-- C1: the export path cannot return the paused frame, because
`class VideoThread` (src/utils/video_thread.py) defines neither the
`request_current_frame_data` signal that
`VideoInferenceTab.on_export_frame` emits nor the
`frame_data_ready_for_export` signal that `on_video_selected` connects:
the run loop retains no raw frame or raw inference result, and both
accesses fail on the real class. -/
theorem c1_export_members_missing :
    ("request_current_frame_data" ∈ VT.tabUsedThreadAttrs ∧
     "request_current_frame_data" ∉ VT.videoThreadAttrs) ∧
    ("frame_data_ready_for_export" ∈ VT.tabUsedThreadAttrs ∧
     "frame_data_ready_for_export" ∉ VT.videoThreadAttrs) := by
  constructor <;> constructor <;> decide

/-- C9: `VideoInferenceTab.on_step_forward` and `on_step_backward` call
`step_forward` / `step_backward` on the video thread, but `class
VideoThread` (src/utils/video_thread.py) defines no such methods, so
single-frame stepping cannot behave as claimed. -/
theorem c9_step_members_missing :
    ("step_forward" ∈ VT.tabUsedThreadAttrs ∧
     "step_forward" ∉ VT.videoThreadAttrs) ∧
    ("step_backward" ∈ VT.tabUsedThreadAttrs ∧
     "step_backward" ∉ VT.videoThreadAttrs) := by
  constructor <;> constructor <;> decide

/-- C3 counterexample: on the open-failure exit path `VideoThread.run`
terminates after emitting the error event without ever calling
`cap.release()` — zero releases, not exactly one. -/
theorem c3_release_cx :
    (VT.run ⟨true, false, ⟨[some 0], 0, fun _ => 0, fun n => n⟩, 10, false,
        -1, false, fun f => f, []⟩).finished = true ∧
    (VT.run ⟨true, false, ⟨[some 0], 0, fun _ => 0, fun n => n⟩, 10, false,
        -1, false, fun f => f, []⟩).events = [VT.Event.errorOccurred] ∧
    (VT.run ⟨true, false, ⟨[some 0], 0, fun _ => 0, fun n => n⟩, 10, false,
        -1, false, fun f => f, []⟩).events.count VT.Event.released = 0 :=
  ⟨rfl, rfl, rfl⟩

/-- C3 (amended): when the video path is set and the capture opens, the
capture is released exactly once whenever the worker terminates (normal
end-of-stream or explicit stop), and never before termination; on the
open-failure exit path the worker terminates without releasing. -/
theorem c3_release_amended (i : VT.RunInput) (hp : i.has_path = true)
    (ho : i.openOk = true) :
    (VT.run i).events.count VT.Event.released =
      (if (VT.run i).finished then 1 else 0) := by
  simp only [VT.run]
  rw [if_neg (by simp [hp]), if_neg (by simp [ho])]
  simp only [List.count_cons]
  rw [loopRun_released]
  simp

/-- C3 witness: a concrete successful open over a two-batch schedule,
instantiating the amended release theorem. -/
theorem c3_release_witness :
    ((⟨true, true, ⟨[some 0], 0, fun _ => 0, fun n => n⟩, 10, false, -1,
        false, fun f => f, [[], []]⟩ : VT.RunInput).has_path = true ∧
     (⟨true, true, ⟨[some 0], 0, fun _ => 0, fun n => n⟩, 10, false, -1,
        false, fun f => f, [[], []]⟩ : VT.RunInput).openOk = true) ∧
    (VT.run ⟨true, true, ⟨[some 0], 0, fun _ => 0, fun n => n⟩, 10, false,
        -1, false, fun f => f, [[], []]⟩).events.count VT.Event.released =
      (if (VT.run ⟨true, true, ⟨[some 0], 0, fun _ => 0, fun n => n⟩, 10,
          false, -1, false, fun f => f, [[], []]⟩).finished then 1 else 0) :=
  ⟨⟨rfl, rfl⟩, c3_release_amended _ rfl rfl⟩

/-- C4: all seeks recorded between two loop passes coalesce — the next
pass (paused or not) performs exactly one reposition, at the value of the
last seek, and clears the pending seek; and a pass that starts with no
pending seek performs no reposition (an applied seek is never applied
twice), while a recorded pending seek is always applied on the next
non-stopped pass. -/
theorem c4_seek_coalescing :
    (∀ (s : VT.TState) (cs : List VT.Cmd) (v : ℤ),
      VT.lastSeek cs = some v → 0 ≤ v →
      (VT.applyCmds s cs).should_stop = false →
      VT.seekCount (VT.iterate (VT.applyCmds s cs)).events = 1 ∧
      VT.Event.seekApplied v ∈ (VT.iterate (VT.applyCmds s cs)).events ∧
      (VT.iterate (VT.applyCmds s cs)).state.seek_position = -1) ∧
    (∀ s : VT.TState, s.should_stop = false → s.seek_position < 0 →
      VT.seekCount (VT.iterate s).events = 0 ∧
      (VT.iterate s).state.seek_position = s.seek_position) := by
  constructor
  · intro s cs v hl hv hns
    have hseek := applyCmds_seek_of_lastSeek (s := s) hl
    obtain ⟨hcount, hpos, _⟩ := iterate_seek_char hns
    rw [hseek] at hcount hpos
    rw [if_pos hv] at hcount
    obtain ⟨hmem, hstate⟩ := hpos hv
    exact ⟨hcount, hmem, hstate⟩
  · intro s h hneg
    obtain ⟨hcount, _, hstate⟩ := iterate_seek_char h
    rw [if_neg (not_le.mpr hneg)] at hcount
    exact ⟨hcount, hstate hneg⟩

/-- C4 witness: two seeks issued while paused coalesce to one reposition
at 250 on the next pass of a concrete paused state. -/
theorem c4_seek_witness :
    (VT.lastSeek [VT.Cmd.seek 100, VT.Cmd.seek 250] = some 250 ∧
     (0 : ℤ) ≤ 250 ∧
     (VT.applyCmds ⟨true, false, -1, ⟨[some 1, some 2], 0, fun _ => 0,
         fun n => n⟩, 10, false, fun f => f⟩
       [VT.Cmd.seek 100, VT.Cmd.seek 250]).should_stop = false) ∧
    (VT.seekCount (VT.iterate (VT.applyCmds ⟨true, false, -1,
        ⟨[some 1, some 2], 0, fun _ => 0, fun n => n⟩, 10, false,
        fun f => f⟩ [VT.Cmd.seek 100, VT.Cmd.seek 250])).events = 1 ∧
     VT.Event.seekApplied 250 ∈ (VT.iterate (VT.applyCmds ⟨true, false, -1,
        ⟨[some 1, some 2], 0, fun _ => 0, fun n => n⟩, 10, false,
        fun f => f⟩ [VT.Cmd.seek 100, VT.Cmd.seek 250])).events ∧
     (VT.iterate (VT.applyCmds ⟨true, false, -1, ⟨[some 1, some 2], 0,
        fun _ => 0, fun n => n⟩, 10, false, fun f => f⟩
        [VT.Cmd.seek 100, VT.Cmd.seek 250])).state.seek_position = -1) :=
  ⟨⟨rfl, by decide, rfl⟩,
   c4_seek_coalescing.1 _ [VT.Cmd.seek 100, VT.Cmd.seek 250] 250 rfl
     (by decide) rfl⟩

/-- C5: a failed read — end of stream or per-frame decode error, which
`cap.read` maps to the same failure without retrying — makes the pass
emit `playback_finished` and exit, and in every run trace the
`playback_finished` event is unique and terminal: only the release
follows it, in particular no further `frame_ready`. -/
theorem c5_finish_terminal :
    (∀ c : VT.Cap,
      (c.frames.get? c.pos = some none ∨ c.frames.get? c.pos = none) →
      c.read = (none, c)) ∧
    (∀ s : VT.TState, s.should_stop = false → s.is_paused = false →
      s.seek_position < 0 → (s.cap.read).1 = none →
      VT.iterate s = ⟨[VT.Event.playbackFinished, VT.Event.released], s,
        false⟩) ∧
    (∀ (s : VT.TState) (sch : List (List VT.Cmd)),
      VT.Event.playbackFinished ∈ (VT.loopRun s sch).events →
      ∃ pre, (VT.loopRun s sch).events =
          pre ++ [VT.Event.playbackFinished, VT.Event.released] ∧
        VT.Event.playbackFinished ∉ pre ∧
        (VT.loopRun s sch).finished = true) := by
  refine ⟨fun c h => read_none_of_fail h, ?_,
    fun s sch h => loopRun_pf_terminal sch s h⟩
  intro s h1 h2 h3 h4
  rw [iterate_of_go h1, applySeek_of_neg h3]
  rw [iterBody_read_none h2 h4]
  rfl

/-- C5 witness: concrete instances — a decode-error read, a terminal pass
on an exhausted capture, and a run whose trace ends in the finish
event. -/
theorem c5_finish_witness :
    ((⟨[none], 0, fun _ => 0, fun n => n⟩ : VT.Cap).frames.get?
        (⟨[none], 0, fun _ => 0, fun n => n⟩ : VT.Cap).pos = some none ∧
     (⟨[none], 0, fun _ => 0, fun n => n⟩ : VT.Cap).read =
       (none, ⟨[none], 0, fun _ => 0, fun n => n⟩)) ∧
    (VT.Event.playbackFinished ∈
      (VT.loopRun ⟨false, false, -1, ⟨[], 0, fun _ => 0, fun n => n⟩, 10,
        false, fun f => f⟩ [[]]).events ∧
     ∃ pre, (VT.loopRun ⟨false, false, -1, ⟨[], 0, fun _ => 0, fun n => n⟩,
        10, false, fun f => f⟩ [[]]).events =
          pre ++ [VT.Event.playbackFinished, VT.Event.released] ∧
        VT.Event.playbackFinished ∉ pre ∧
        (VT.loopRun ⟨false, false, -1, ⟨[], 0, fun _ => 0, fun n => n⟩, 10,
          false, fun f => f⟩ [[]]).finished = true) :=
  ⟨⟨rfl, c5_finish_terminal.1 _ (Or.inl rfl)⟩,
   by decide,
   c5_finish_terminal.2.2 _ [[]] (by decide)⟩

/-- C6: a Stop delivered in any command batch — while playing or while
paused — makes the very next check exit the loop: the pass emits only the
release, no further frame and no further sleep, so shutdown latency is
bounded by the single tick in progress; and the pause suspension is a
bounded 100 ms poll per pass that re-checks the stop flag. -/
theorem c6_stop_interrupts :
    (∀ (s : VT.TState) (cs : List VT.Cmd) (rest : List (List VT.Cmd)),
      VT.Cmd.stop ∈ cs →
      (VT.loopRun s (cs :: rest)).events = [VT.Event.released] ∧
      (VT.loopRun s (cs :: rest)).finished = true) ∧
    (∀ s : VT.TState, s.should_stop = false → s.is_paused = true →
      s.seek_position < 0 →
      VT.iterate s = ⟨[VT.Event.slept 100], s, true⟩) := by
  constructor
  · intro s cs rest hmem
    have hstop := applyCmds_stop_of_mem (s := s) hmem
    have hiter := iterate_of_stop hstop
    have hcont : (VT.iterate (VT.applyCmds s cs)).cont = false := by
      rw [hiter]
    rw [loopRun_cons_stop rest hcont, hiter]
    exact ⟨rfl, rfl⟩
  · intro s h1 h2 h3
    rw [iterate_of_go h1, applySeek_of_neg h3]
    rw [iterBody_paused h2]
    rfl

/-- C6 witness: a Stop delivered while paused produces only the release
and immediate termination, and a concrete paused pass is a single 100 ms
poll. -/
theorem c6_stop_witness :
    (VT.Cmd.stop ∈ [VT.Cmd.pause, VT.Cmd.stop] ∧
     (VT.loopRun ⟨true, false, -1, ⟨[some 1], 0, fun _ => 0, fun n => n⟩,
        10, false, fun f => f⟩
        ([VT.Cmd.pause, VT.Cmd.stop] :: [[]])).events =
       [VT.Event.released] ∧
     (VT.loopRun ⟨true, false, -1, ⟨[some 1], 0, fun _ => 0, fun n => n⟩,
        10, false, fun f => f⟩
        ([VT.Cmd.pause, VT.Cmd.stop] :: [[]])).finished = true) ∧
    ((⟨true, false, -1, ⟨[some 1], 0, fun _ => 0, fun n => n⟩, 10, false,
        fun f => f⟩ : VT.TState).should_stop = false ∧
     VT.iterate ⟨true, false, -1, ⟨[some 1], 0, fun _ => 0, fun n => n⟩,
        10, false, fun f => f⟩ =
       ⟨[VT.Event.slept 100], ⟨true, false, -1, ⟨[some 1], 0, fun _ => 0,
          fun n => n⟩, 10, false, fun f => f⟩, true⟩) :=
  ⟨⟨by decide,
    (c6_stop_interrupts.1 _ [VT.Cmd.pause, VT.Cmd.stop] [[]] (by decide)).1,
    (c6_stop_interrupts.1 _ [VT.Cmd.pause, VT.Cmd.stop] [[]] (by decide)).2⟩,
   rfl, c6_stop_interrupts.2 _ rfl rfl (by decide)⟩

/-- C7: whenever any export precondition fails — no video selected, no
export folder configured, no running video thread, or the session not
paused — `on_export_frame` returns a synchronous refusal and the export
pipeline performs no file-system writes. -/
theorem c7_export_refused
    (hnd : Tab.VideoHandlerS) (dir : Option String)
    (thr : Option Tab.ThreadRef) (acts : List Tab.FsAct)
    (hfail : Tab.has_current_video hnd = false ∨ dir = none ∨ thr = none ∨
      (∃ t, thr = some t ∧ (t.isRunning = false ∨ t.is_paused = false))) :
    (∃ msg, Tab.on_export_frame hnd dir thr = Tab.ExportOutcome.refused msg) ∧
    Tab.export_writes hnd dir thr acts = [] := by
  have hsome : ∀ (d : String) (t : Tab.ThreadRef),
      Tab.on_export_frame hnd (some d) (some t) =
        (if ¬ Tab.has_current_video hnd then
          Tab.ExportOutcome.refused "Please select a video first."
        else if ¬ t.isRunning then
          Tab.ExportOutcome.refused "Video is not loaded/running."
        else if ¬ t.is_paused then
          Tab.ExportOutcome.refused
            "Please pause the video before exporting the current frame."
        else Tab.ExportOutcome.requested) := fun _ _ => rfl
  have hrefused : ∃ msg,
      Tab.on_export_frame hnd dir thr = Tab.ExportOutcome.refused msg := by
    by_cases hv : Tab.has_current_video hnd = true
    · cases dir with
      | none =>
        refine ⟨"Please select an export output folder first.", ?_⟩
        unfold Tab.on_export_frame
        rw [if_neg (by simp [hv])]
      | some d =>
        cases thr with
        | none =>
          refine ⟨"Video is not loaded/running.", ?_⟩
          unfold Tab.on_export_frame
          rw [if_neg (by simp [hv])]
        | some t =>
          rw [hsome d t, if_neg (by simp [hv])]
          rcases hfail with hf | hf | hf | ⟨t', ht', hflag⟩
          · rw [hv] at hf
            cases hf
          · simp at hf
          · simp at hf
          · have ht : t = t' := by injection ht'
            subst ht
            rcases hflag with hfR | hfP
            · exact ⟨_, by rw [if_pos (by simp [hfR])]⟩
            · by_cases hr : t.isRunning = true
              · exact ⟨_, by rw [if_neg (by simp [hr]), if_pos (by simp [hfP])]⟩
              · exact ⟨_, by rw [if_pos hr]⟩
    · refine ⟨"Please select a video first.", ?_⟩
      unfold Tab.on_export_frame
      rw [if_pos hv]
  obtain ⟨msg, hmsg⟩ := hrefused
  refine ⟨⟨msg, hmsg⟩, ?_⟩
  unfold Tab.export_writes
  rw [hmsg]

/-- C7 witness: a running but unpaused session with a video and an export
folder configured is refused and nothing is written. -/
theorem c7_export_witness :
    (Tab.has_current_video ⟨["a.mp4"], 0⟩ = false ∨
      (some "out" : Option String) = none ∨
      (some (⟨true, false⟩ : Tab.ThreadRef) : Option Tab.ThreadRef) = none ∨
      (∃ t, (some (⟨true, false⟩ : Tab.ThreadRef) : Option Tab.ThreadRef) =
          some t ∧ (t.isRunning = false ∨ t.is_paused = false))) ∧
    (∃ msg, Tab.on_export_frame ⟨["a.mp4"], 0⟩ (some "out")
        (some ⟨true, false⟩) = Tab.ExportOutcome.refused msg) ∧
    Tab.export_writes ⟨["a.mp4"], 0⟩ (some "out") (some ⟨true, false⟩)
      [Tab.FsAct.writeImage ["out"]] = [] := by
  have hdis : Tab.has_current_video ⟨["a.mp4"], 0⟩ = false ∨
      (some "out" : Option String) = none ∨
      (some (⟨true, false⟩ : Tab.ThreadRef) : Option Tab.ThreadRef) = none ∨
      (∃ t, (some (⟨true, false⟩ : Tab.ThreadRef) : Option Tab.ThreadRef) =
          some t ∧ (t.isRunning = false ∨ t.is_paused = false)) :=
    Or.inr (Or.inr (Or.inr ⟨⟨true, false⟩, rfl, Or.inr rfl⟩))
  have h := c7_export_refused ⟨["a.mp4"], 0⟩ (some "out") (some ⟨true, false⟩)
    [Tab.FsAct.writeImage ["out"]] hdis
  exact ⟨hdis, h.1, h.2⟩

set_option maxRecDepth 4000 in
/-- C8: every export writes the image as
`\x3cdir\x3e/images/\x3cname\x3e_f\x3cpadded index\x3e.jpg`; with inference enabled, zero
detected instances or an absent result still produce an (empty) label
file under `labels/`; with inference disabled no label file is written;
and the frame index is zero-padded to a minimum width of 6 digits. -/
theorem c8_export_layout (enabled : Bool) (dir : String) (fr : Nat)
    (n : Nat) (name : String) (results : Option Tab.UltraResults) :
    Tab.FsAct.writeImage [dir, "images", name ++ "_f" ++ Tab.pad6 n ++ ".jpg"]
      ∈ Tab.handle_frame_export_data enabled (some dir) (some fr) n name
          results ∧
    (enabled = true →
      (results = none ∨ (∃ r, results = some r ∧
          Tab.convert_results_to_yolo_lines r = [])) →
      Tab.FsAct.writeLabel [dir, "labels", name ++ "_f" ++ Tab.pad6 n ++ ".txt"]
          [] ∈ Tab.handle_frame_export_data enabled (some dir) (some fr) n
            name results) ∧
    (enabled = false → ∀ p ls, Tab.FsAct.writeLabel p ls ∉
      Tab.handle_frame_export_data enabled (some dir) (some fr) n name
        results) ∧
    (Tab.pad6 n).length = max 6 (toString n).length := by
  have hacts : Tab.handle_frame_export_data enabled (some dir) (some fr) n
      name results =
      [Tab.FsAct.makeDirs [dir, "images"], Tab.FsAct.makeDirs [dir, "labels"],
       Tab.FsAct.writeImage
         [dir, "images", name ++ "_f" ++ Tab.pad6 n ++ ".jpg"]] ++
      (if enabled then
        match results with
        | some r =>
          if ¬ (Tab.convert_results_to_yolo_lines r).isEmpty then
            [Tab.FsAct.writeLabel
              [dir, "labels", name ++ "_f" ++ Tab.pad6 n ++ ".txt"]
              (Tab.convert_results_to_yolo_lines r)]
          else
            [Tab.FsAct.writeLabel
              [dir, "labels", name ++ "_f" ++ Tab.pad6 n ++ ".txt"] []]
        | none =>
          [Tab.FsAct.writeLabel
            [dir, "labels", name ++ "_f" ++ Tab.pad6 n ++ ".txt"] []]
      else []) := rfl
  rw [hacts]
  refine ⟨?_, ?_, ?_, ?_⟩
  · exact List.mem_append_left _ (List.mem_cons_of_mem _
      (List.mem_cons_of_mem _ (List.mem_cons_self _ _)))
  · intro he hres
    subst he
    rcases hres with rfl | ⟨r, rfl, hconv⟩
    · exact List.mem_append_right _ (by simp)
    · refine List.mem_append_right _ ?_
      rw [if_pos rfl]
      simp [hconv]
  · intro he p ls
    subst he
    rw [if_neg (by simp)]
    simp
  · simp only [Tab.pad6, String.length_append]
    have hmk : (String.mk (List.replicate (6 - (toString n).length) '0')).length
        = 6 - (toString n).length := by
      show (List.replicate (6 - (toString n).length) '0').length =
        6 - (toString n).length
      rw [List.length_replicate]
    rw [hmk]
    omega

/-- C8 witness: a concrete export of frame 3 of video `vid` with inference
enabled and no result writes the image and an empty label file; the same
export with inference disabled writes no label file. -/
theorem c8_export_witness :
    ((true = true ∧ ((none : Option Tab.UltraResults) = none ∨
        (∃ r, (none : Option Tab.UltraResults) = some r ∧
          Tab.convert_results_to_yolo_lines r = []))) ∧
     (false = false)) ∧
    Tab.FsAct.writeImage ["out", "images", "vid" ++ "_f" ++ Tab.pad6 3 ++ ".jpg"]
      ∈ Tab.handle_frame_export_data true (some "out") (some 7) 3 "vid" none ∧
    Tab.FsAct.writeLabel ["out", "labels", "vid" ++ "_f" ++ Tab.pad6 3 ++ ".txt"]
      [] ∈ Tab.handle_frame_export_data true (some "out") (some 7) 3 "vid"
        none ∧
    (∀ p ls, Tab.FsAct.writeLabel p ls ∉
      Tab.handle_frame_export_data false (some "out") (some 7) 3 "vid" none) ∧
    (Tab.pad6 3).length = max 6 (toString 3).length := by
  have h1 := c8_export_layout true "out" 7 3 "vid" none
  have h2 := c8_export_layout false "out" 7 3 "vid" none
  exact ⟨⟨⟨rfl, Or.inl rfl⟩, rfl⟩, h1.1, h1.2.1 rfl (Or.inl rfl),
    h2.2.2.1 rfl, h1.2.2.2⟩
